import Mathlib

/-
Shallow embedding of the hangman client/server (src/hangman) for checking
the natural-language specification against the code.

Conventions of the embedding:
* C strings become `List Char`; the NUL terminator is the character `NUL`.
* Machine integers that can only hold small values (error counters, list
  lengths, client numbers) become `Nat`; the mailbox `clientno`, which uses
  the sentinel value -1, becomes `Int`.
* The fixed 80-byte `obscured` buffer of `struct game` is modelled by the
  list of its first `strlen(secret)` bytes: `new_game` zeroes the whole
  struct and then writes exactly that region, and `calculate_results` only
  ever reads and writes indices below `strlen(secret)` (on a loss,
  `strncpy` overwrites the region with the secret, which is NUL-terminated
  inside the buffer).
* Semaphore posts performed by a code path are recorded as an explicit
  event list, so that theorems can talk about which semaphores get posted.
-/

namespace Hangman

/-- hangman-common.h: `#define MAX_ERROR (8)`. -/
def MAX_ERROR : Nat := 8

/-- hangman-common.h: `#define MAX_WORD_LENGTH (80)`. -/
def MAX_WORD_LENGTH : Nat := 80

/-- The NUL character, value of a zeroed byte in the C buffers. -/
def NUL : Char := Char.ofNat 0

/-- hangman-common.h: `enum game_state`. -/
inductive game_state where
  | game_new
  | game_open
  | game_impossible
  | game_lost
  | game_won
  deriving DecidableEq

open game_state

/-- hangman-server.c: `struct game`. -/
structure Game where
  secret : List Char
  obscured : List Char
  status : game_state
  errors : Nat
  deriving DecidableEq

/-- hangman-server.c: `struct client` (the `next` pointer is replaced by
membership in the server's client list). -/
structure Client where
  clientno : Nat
  words : List (List Char)
  current_game : Game
  gamecnt : Nat
  deriving DecidableEq

/-- hangman-common.h: `struct shm`, the shared-memory mailbox. -/
structure Shm where
  errors : Nat
  clientno : Int
  status : game_state
  tried_char : Char
  word : List Char
  terminate : Bool
  deriving DecidableEq

/-- The scanning loop of `calculate_results` (hangman-server.c lines
247-253): walks the secret, unmasking matched positions in the obscured
buffer, and accumulates the two flags `error` (no position matched) and
`won` (after the updates, no position of the obscured buffer is still
masked with an underscore). Returns the updated obscured region together
with the two flags. -/
def scan (t : Char) : List Char → List Char → List Char × Bool × Bool
  | [], _ => ([], true, true)
  | s :: ss, os =>
      let o2 := if s = t then t else os.headD NUL
      let r := scan t ss os.tail
      (o2 :: r.1, r.2.1 && !(s == t), r.2.2 && !(o2 == '_'))

/-- hangman-server.c: `calculate_results` (lines 241-269), the guess
handler: scan the secret, set `game_won` if everything is unmasked,
otherwise count an error when no position matched and set `game_lost`
(revealing the secret) once the error count exceeds `MAX_ERROR`. -/
def calculate_results (g : Game) (t : Char) : Game :=
  let r := scan t g.secret g.obscured
  if r.2.2 then
    { g with obscured := r.1, status := game_won }
  else if r.2.1 = false then
    { g with obscured := r.1 }
  else
    let e := g.errors + 1
    if MAX_ERROR < e then
      { g with errors := e, status := game_lost, obscured := g.secret }
    else
      { g with errors := e, obscured := r.1 }

/-- hangman-server.c: `new_game` (lines 193-239). `wordcnt` is the global
word count, `r` the value returned by `rand()`. If the client has played
all words, only the status is set to `game_impossible`; otherwise the node
at index `r % (wordcnt - gamecnt)` is removed from the client's private
word list and becomes the secret of a fresh game (zeroed struct, obscured
buffer masking every non-space character with an underscore). -/
def new_game (wordcnt : Nat) (r : Nat) (c : Client) : Client :=
  if wordcnt ≤ c.gamecnt then
    { c with current_game := { c.current_game with status := game_impossible } }
  else
    let pos := r % (wordcnt - c.gamecnt)
    let v := c.words.getD pos []
    { c with
      gamecnt := c.gamecnt + 1,
      words := c.words.eraseIdx pos,
      current_game :=
        { secret := v,
          obscured := v.map (fun ch => if ch = ' ' then ' ' else '_'),
          status := game_open,
          errors := 0 } }

/-- Semaphore-post events the server can perform while handling one
request: posting the client/gate semaphore `clt_sem` or the
response-ready semaphore `ret_sem` (hangman-server.c lines 363-364). -/
inductive SemOp where
  | post_clt
  | post_ret
  deriving DecidableEq

/-- The server's mutable state: the linked list of clients (head first,
new clients are prepended) and the `client_count` counter used to assign
fresh client numbers. -/
structure ServerState where
  clients : List Client
  client_count : Nat
  deriving DecidableEq

/-- The lookup walk of the dispatch loop (hangman-server.c lines 390-394):
find the first client whose number equals the mailbox `clientno`. -/
def findClient (cs : List Client) (n : Int) : Option Client :=
  match cs with
  | [] => none
  | c :: rest => if (c.clientno : Int) = n then some c else findClient rest n

/-- Node removal in the terminate branch (hangman-server.c lines 400-407):
unlink the first client whose number is `n`. -/
def removeClient (cs : List Client) (n : Int) : List Client :=
  match cs with
  | [] => []
  | c :: rest => if (c.clientno : Int) = n then rest else c :: removeClient rest n

/-- In-place mutation of the found client node: replace the first client
whose number is `n` by `x`. -/
def setClient (cs : List Client) (n : Int) (x : Client) : List Client :=
  match cs with
  | [] => []
  | c :: rest => if (c.clientno : Int) = n then x :: rest else c :: setClient rest n x

/-- Session resolution at the top of the dispatch loop (hangman-server.c
lines 379-396): a mailbox `clientno` of -1 registers a new client with a
fresh number and a private copy of the master word list (`wordlist_copy`
duplicates the string values, so the copy is the same list of words);
otherwise the client is looked up, `none` meaning the fatal
"could not find client" bail-out. The C code mallocs the new client and
initializes `words`, `clientno`, `next` and `gamecnt` but leaves
`current_game` uninitialized; `garbage` is that indeterminate malloc
content, which theorems quantify over. -/
def resolve_client (master : List (List Char)) (garbage : Game)
    (st : ServerState) (shm : Shm) : Option (Client × ServerState) :=
  if shm.clientno = -1 then
    let cur : Client :=
      { clientno := st.client_count, words := master,
        current_game := garbage, gamecnt := 0 }
    some (cur, { clients := cur :: st.clients, client_count := st.client_count + 1 })
  else
    match findClient st.clients shm.clientno with
    | none => none
    | some cur => some (cur, st)

/-- The game-handling branch of the dispatch loop (hangman-server.c lines
416-422): a mailbox status of `game_new` requests a new game; anything
else is a guess handed to `calculate_results`. -/
def handle_game (wordcnt : Nat) (r : Nat) (shm : Shm) (cur : Client) : Client :=
  if shm.status = game_new then new_game wordcnt r cur
  else { cur with current_game := calculate_results cur.current_game shm.tried_char }

/-- One iteration of the server's dispatch loop (hangman-server.c lines
379-431), from `sem_wait(srv_sem)` returning to the end of the loop body.
`r` is the value of `rand()`. Returns `none` when the server bails out
because the mailbox names an unknown client; otherwise the new server
state, the mailbox after the response was written, and the list of
semaphore posts performed. `garbage` is the indeterminate content of the
`current_game` field malloc'd during registration, consumed only when
this dispatch registers a new client. -/
def dispatch (wordcnt : Nat) (master : List (List Char)) (garbage : Game) (r : Nat)
    (st : ServerState) (shm : Shm) : Option (ServerState × Shm × List SemOp) :=
  (resolve_client master garbage st shm).map (fun p =>
    if shm.terminate then
      ({ p.2 with clients := removeClient p.2.clients p.1.clientno },
       { shm with terminate := false },
       [SemOp.post_clt])
    else
      ({ p.2 with clients :=
           setClient p.2.clients p.1.clientno (handle_game wordcnt r shm p.1) },
       { shm with
           clientno := ((handle_game wordcnt r shm p.1).clientno : Int),
           status := (handle_game wordcnt r shm p.1).current_game.status,
           errors := (handle_game wordcnt r shm p.1).current_game.errors,
           word := (handle_game wordcnt r shm p.1).current_game.obscured },
       [SemOp.post_ret]))

/-- hangman-server.c: `free_resources` (lines 149-186), the server's
shutdown path restricted to its shared-memory effects: set the broadcast
`terminate` flag and post the client/gate semaphore once per tracked
client so every blocked client can observe the flag. -/
def free_resources (st : ServerState) (shm : Shm) : Shm × List SemOp :=
  ({ shm with terminate := true }, st.clients.map (fun _ => SemOp.post_clt))

/-- A request as written into the mailbox by a client while it holds the
gate. A normal request writes `status`, `clientno` and `tried_char`
(hangman-client.c lines 236-238); a terminate request instead writes
`terminate = true` and `clientno` (hangman-client.c lines 104-105). -/
structure Request where
  clientno : Int
  status : game_state
  tried_char : Char
  terminate : Bool
  deriving DecidableEq

/-- The client-side mailbox write for one request, on top of the current
mailbox contents (fields the client does not write carry over). -/
def writeRequest (shm : Shm) (q : Request) : Shm :=
  if q.terminate then
    { shm with terminate := true, clientno := q.clientno }
  else
    { shm with status := q.status, clientno := q.clientno, tried_char := q.tried_char }

/-- The mailbox contents right after the server creates the shared-memory
object: `ftruncate` zero-fills it. -/
def shm0 : Shm :=
  { errors := 0, clientno := 0, status := game_new, tried_char := NUL,
    word := [], terminate := false }

/-- The server state before any request was dispatched. -/
def serverState0 : ServerState := { clients := [], client_count := 0 }

/-- Run the dispatch loop over a list of requests (each paired with the
`rand()` value drawn while serving it). Returns the final server state,
the final mailbox, and the list of mailbox snapshots each client read as
its response (the mailbox contents right after the corresponding
dispatch). Stops with `none` when the server bails out. Each request
carries the `rand()` value drawn while serving it and the indeterminate
malloc content consumed if it registers a new client. -/
def runServer (wordcnt : Nat) (master : List (List Char)) :
    List (Nat × Game × Request) → ServerState → Shm → Option (ServerState × Shm × List Shm)
  | [], st, shm => some (st, shm, [])
  | (r, garbage, q) :: rest, st, shm =>
    match dispatch wordcnt master garbage r st (writeRequest shm q) with
    | none => none
    | some (st1, shm1, _) =>
      match runServer wordcnt master rest st1 shm1 with
      | none => none
      | some (st2, shm2, resps) => some (st2, shm2, shm1 :: resps)

/-- wordlist.c: `#define MAXLINELEN 1024`. -/
def MAXLINELEN : Nat := 1024

/-- Byte-wise copy of a line into the front of the buffer, as `fgets`
does (`blit line i buf` writes `line` starting at index `i`). -/
def blit : List Char → Nat → List Char → List Char
  | [], _, buf => buf
  | c :: cs, i, buf => blit cs (i + 1) (buf.set i c)

/-- Effect of `fgets` followed by `buf[strcspn(buf, "\n")] = '\0'`
(wordlist.c lines 61-62) on the buffer, for a line (without its newline)
that fits: the line's bytes land at the front, `fgets` puts `'\n'` and
`'\0'` right after them, and `strcspn` overwrites the `'\n'` with `'\0'`.
Bytes beyond `line.length + 1` keep their previous (stale) content. -/
def load_line (buf : List Char) (line : List Char) : List Char :=
  ((blit line 0 buf).set line.length NUL).set (line.length + 1) NUL

/-- The character filter of `wordlist_read` (wordlist.c line 68):
`isalpha(*s) || *s == 0x20`. -/
def keepChar (c : Char) : Bool := c.isAlpha || c == ' '

/-- The inner filtering loop of `wordlist_read` (wordlist.c lines 67-72):
scan the buffer from index `s`, copying kept characters (uppercased) to
index `ptr` of the same buffer, until a NUL byte is read. Note that the C
code never resets `ptr` between lines; this loop receives whatever value
`ptr` had after the previous line. The loop is modelled with step fuel;
`none` means an index left the 1024-byte buffer, which in C is a buffer
overflow (undefined behavior). Fuel `MAXLINELEN + 1` is enough to reach
the bound check, so `none` arises only from the explicit bound checks. -/
def strip_loop : Nat → List Char → Nat → Nat → Option (List Char × Nat)
  | 0, _, _, _ => none
  | fuel + 1, buf, s, ptr =>
    if MAXLINELEN ≤ s then none
    else
      let c := buf.getD s NUL
      if c = NUL then some (buf, ptr)
      else if keepChar c then
        if MAXLINELEN ≤ ptr then none
        else strip_loop fuel (buf.set ptr c.toUpper) (s + 1) (ptr + 1)
      else strip_loop fuel buf (s + 1) ptr

/-- The line loop of `wordlist_read` (wordlist.c lines 61-90) over the
input stream's lines (each given without its trailing newline and assumed
to fit the 1024-byte buffer): load the line, skip it if blank, otherwise
run the filtering loop (with the carried-over `ptr`!), NUL-terminate at
`ptr`, and append the C string now at the front of the buffer as the next
word. Produces the word list, or `none` on buffer overflow. -/
def wordlist_read_lines : List (List Char) → List Char → Nat → Option (List (List Char))
  | [], _, _ => some []
  | line :: rest, buf, ptr =>
    let buf1 := load_line buf line
    if buf1.getD 0 NUL = NUL then wordlist_read_lines rest buf1 ptr
    else
      match strip_loop (MAXLINELEN + 1) buf1 0 ptr with
      | none => none
      | some (buf2, ptr2) =>
        if MAXLINELEN ≤ ptr2 then none
        else
          let buf3 := buf2.set ptr2 NUL
          let w := buf3.takeWhile (fun c => !(c == NUL))
          match wordlist_read_lines rest buf3 ptr2 with
          | none => none
          | some ws => some (w :: ws)

/-- wordlist.c: `wordlist_read` (lines 50-93), modelled on the list of
input lines. The stack buffer `buf` is uninitialized in C; the model
starts it zeroed (no claim depends on the initial stale bytes). The
returned count is the number of list nodes appended, i.e. the length of
the produced word list. -/
def wordlist_read (lines : List (List Char)) : Option (List (List Char) × Nat) :=
  (wordlist_read_lines lines (List.replicate MAXLINELEN NUL) 0).map
    (fun ws => (ws, ws.length))

/-- The word loader as the specification describes it (one word per
non-blank line, case-folded to uppercase, characters other than letters
and spaces removed, blank lines skipped). This definition follows the
spec's words, for comparison with `wordlist_read`, which follows the
code. -/
def load_words_spec (lines : List (List Char)) : List (List Char) :=
  (lines.filter (fun l => !(l.isEmpty))).map
    (fun l => (l.filter keepChar).map Char.toUpper)

/-- Semaphore-post events a client can perform: posting the request
semaphore `srv_sem` or the client/gate semaphore `clt_sem`. -/
inductive CSemOp where
  | post_srv
  | post_clt
  deriving DecidableEq

/-- hangman-client.c, lines 226-242: the client's send-request critical
section, entered right after `sem_wait(clt_sem)` succeeded. If the
mailbox `terminate` flag is set, the client calls `free_resources(false)`
(which performs no semaphore post and no mailbox write) and exits with
`EXIT_FAILURE`; otherwise it writes its request fields and posts
`srv_sem`. The result is the mailbox after the critical section, the
semaphore posts performed, and `some exitcode` when the process exited. -/
def client_send_request (shm : Shm) (game_status : game_state) (clientno : Int)
    (c : Char) : Shm × List CSemOp × Option Nat :=
  if shm.terminate then
    (shm, [], some 1)
  else
    ({ shm with status := game_status, clientno := clientno, tried_char := c },
     [CSemOp.post_srv], none)

/-- A sequence of New requests served for one session: repeatedly run
`new_game`, recording the secret drawn by each call that actually drew a
word (i.e. each call that found `gamecnt < wordcnt`). -/
def newGames (wordcnt : Nat) : List Nat → Client → Client × List (List Char)
  | [], c => (c, [])
  | r :: rs, c =>
    if wordcnt ≤ c.gamecnt then
      newGames wordcnt rs (new_game wordcnt r c)
    else
      let c1 := new_game wordcnt r c
      let p := newGames wordcnt rs c1
      (p.1, c1.current_game.secret :: p.2)

/-- The specification's invariant on a game (section 3): the obscured
buffer has the secret's length, the secret never contains the mask
character, spaces are preserved unmasked, and every other position is
either still masked or carries the secret's character. -/
def GameInv (g : Game) : Prop :=
  g.obscured.length = g.secret.length ∧
  (∀ ch ∈ g.secret, ch ≠ '_') ∧
  (∀ i, i < g.secret.length →
     (g.secret.getD i NUL = ' ' → g.obscured.getD i NUL = ' ') ∧
     (g.obscured.getD i NUL = '_' ∨ g.obscured.getD i NUL = g.secret.getD i NUL))

/-- A word that never contains the mask character (true of every word the
loader is meant to produce: uppercase letters and spaces only). -/
def no_mask (w : List Char) : Prop := ∀ ch ∈ w, ch ≠ '_'

/-- Every position of the obscured region below the secret's length is
unmasked. -/
def revealedG (g : Game) : Prop :=
  ∀ i, i < g.secret.length → g.obscured.getD i NUL ≠ '_'

/-- The inductive game invariant behind the error bound: the secret is
mask-free, the error counter never exceeds `MAX_ERROR + 1`, and it can
exceed `MAX_ERROR` only once the obscured buffer is fully revealed (which
is exactly the situation after the loss reveal). -/
def GameBound (g : Game) : Prop :=
  no_mask g.secret ∧ g.errors ≤ MAX_ERROR + 1 ∧ (MAX_ERROR < g.errors → revealedG g)

/-- The session invariant: the current game satisfies `GameBound` and all
pool words are mask-free. -/
def SInv (c : Client) : Prop :=
  GameBound c.current_game ∧ ∀ w ∈ c.words, no_mask w

/-! ### Sanity checks on concrete inputs -/

example :
    new_game 1 0 ⟨0, [['C', 'A', 'T']], ⟨[], [], game_new, 0⟩, 0⟩ =
      ⟨0, [], ⟨['C', 'A', 'T'], ['_', '_', '_'], game_open, 0⟩, 1⟩ := by
  decide

example :
    calculate_results ⟨['C', 'A', 'T'], ['_', '_', '_'], game_open, 0⟩ 'C' =
      ⟨['C', 'A', 'T'], ['C', '_', '_'], game_open, 0⟩ := by
  decide

example :
    calculate_results ⟨['C', 'A', 'T'], ['C', '_', '_'], game_open, 0⟩ 'Z' =
      ⟨['C', 'A', 'T'], ['C', '_', '_'], game_open, 1⟩ := by
  decide

example :
    calculate_results ⟨['C', 'A', 'T'], ['C', 'A', '_'], game_open, 1⟩ 'T' =
      ⟨['C', 'A', 'T'], ['C', 'A', 'T'], game_won, 1⟩ := by
  decide

example :
    calculate_results ⟨['C', 'A', 'T'], ['C', '_', '_'], game_open, 8⟩ 'Q' =
      ⟨['C', 'A', 'T'], ['C', 'A', 'T'], game_lost, 9⟩ := by
  decide

example : load_words_spec [['A'], [], ['1', 'B']] = [['A'], ['B']] := by decide


/-! ### Helper lemmas about the guess scan -/

theorem getD_tail (l : List Char) (i : Nat) (d : Char) :
    l.tail.getD i d = l.getD (i + 1) d := by
  cases l with
  | nil => simp [List.getD]
  | cons a t => simp [List.getD_cons_succ]

theorem headD_eq_getD_zero (l : List Char) (d : Char) : l.headD d = l.getD 0 d := by
  cases l <;> simp

theorem scan_length (t : Char) (s os : List Char) :
    (scan t s os).1.length = s.length := by
  induction s generalizing os with
  | nil => simp [scan]
  | cons a ss ih => simp [scan, ih]

theorem scan_error_eq (t : Char) (s os : List Char) :
    (scan t s os).2.1 = s.all (fun c => !(c == t)) := by
  induction s generalizing os with
  | nil => simp [scan]
  | cons a ss ih => simp [scan, ih, List.all_cons, Bool.and_comm]

theorem scan_won_eq (t : Char) (s os : List Char) :
    (scan t s os).2.2 = (scan t s os).1.all (fun c => !(c == '_')) := by
  induction s generalizing os with
  | nil => simp [scan]
  | cons a ss ih => simp [scan, ih, List.all_cons, Bool.and_comm]

theorem scan_self (t : Char) (s : List Char) (h : ∀ ch ∈ s, ch ≠ '_') :
    scan t s s = (s, s.all (fun c => !(c == t)), true) := by
  induction s with
  | nil => simp [scan]
  | cons a ss ih =>
    have ha : a ≠ '_' := h a (List.mem_cons_self a ss)
    have ih' := ih (fun ch hch => h ch (List.mem_cons_of_mem a hch))
    simp [scan, ih', List.all_cons, Bool.and_comm]
    constructor
    · by_cases hat : a = t
      · subst hat; simp
      · simp [hat]
    · by_cases hat : a = t
      · subst hat; simp [ha]
      · simp [hat, ha]

theorem scan_won_of_revealed (t : Char) (s os : List Char)
    (hs : ∀ ch ∈ s, ch ≠ '_')
    (ho : ∀ i, i < s.length → os.getD i NUL ≠ '_') :
    (scan t s os).2.2 = true := by
  induction s generalizing os with
  | nil => simp [scan]
  | cons a ss ih =>
    have ha : a ≠ '_' := hs a (List.mem_cons_self a ss)
    have h0 : os.headD NUL ≠ '_' := by
      rw [headD_eq_getD_zero]
      exact ho 0 (by simp)
    have h0' : os.head?.getD NUL ≠ '_' := by
      cases os <;> simpa [List.headD] using h0
    have htl : ∀ i, i < ss.length → os.tail.getD i NUL ≠ '_' := by
      intro i hi
      rw [getD_tail]
      exact ho (i + 1) (by simpa using Nat.succ_lt_succ hi)
    have ih' := ih os.tail (fun ch hch => hs ch (List.mem_cons_of_mem a hch)) htl
    simp only [scan, ih', Bool.true_and]
    by_cases hat : a = t
    · subst hat; simp [ha]
    · simp [hat, h0, h0']

theorem scan_revealed_of_won (t : Char) (s os : List Char)
    (h : (scan t s os).2.2 = true) :
    ∀ i, i < s.length → (scan t s os).1.getD i NUL ≠ '_' := by
  intro i hi
  have hlen : i < (scan t s os).1.length := by rw [scan_length]; exact hi
  rw [List.getD_eq_getElem _ _ hlen]
  have hall := (List.all_eq_true).1 ((scan_won_eq t s os) ▸ h)
  have hm := hall ((scan t s os).1[i]) (List.getElem_mem hlen)
  simpa using hm

/-- Pointwise equality at all positions below the length forces list
equality, for lists of equal length. -/
theorem list_eq_of_getD (l1 l2 : List Char) (hlen : l1.length = l2.length)
    (h : ∀ i, i < l2.length → l1.getD i NUL = l2.getD i NUL) : l1 = l2 := by
  apply List.ext_get hlen
  intro n h1 h2
  have := h n h2
  rwa [List.getD_eq_getElem _ _ h1, List.getD_eq_getElem _ _ h2] at this

/-! ### C1: error counting and the transition to Lost -/

/-- C1: for a game with status `Open` whose error count has not yet
exceeded the maximum, one call to `calculate_results`: (a) increments the
error count by exactly one if and only if the guessed letter matches zero
positions of the secret and the call does not detect a win, and leaves it
unchanged otherwise; (b) sets status `Lost` exactly when the
post-increment error count first exceeds `MAX_ERROR` (i.e. the increment
happened with the count already at `MAX_ERROR`); and (c) on that
transition replaces the obscured buffer by the full secret. -/
theorem claim_C1 (g : Game) (t : Char)
    (hopen : g.status = game_open) (herr : g.errors ≤ MAX_ERROR) :
    ((calculate_results g t).errors = g.errors + 1 ↔
       (g.secret.all (fun ch => !(ch == t)) = true ∧ (scan t g.secret g.obscured).2.2 = false)) ∧
    (¬(g.secret.all (fun ch => !(ch == t)) = true ∧ (scan t g.secret g.obscured).2.2 = false) →
       (calculate_results g t).errors = g.errors) ∧
    ((calculate_results g t).status = game_lost ↔
       (g.secret.all (fun ch => !(ch == t)) = true ∧ (scan t g.secret g.obscured).2.2 = false ∧
        g.errors = MAX_ERROR)) ∧
    ((calculate_results g t).status = game_lost →
       (calculate_results g t).obscured = g.secret) := by
  unfold calculate_results
  rw [← scan_error_eq t g.secret g.obscured]
  rcases hwon : (scan t g.secret g.obscured).2.2 with _ | _
  · rcases herror : (scan t g.secret g.obscured).2.1 with _ | _
    · simp only [hwon, herror, Bool.false_eq_true, if_false, if_true]
      refine ⟨by simp, by simp, ?_, by simp [hopen]⟩
      simp [hopen]
    · simp only [hwon, herror, Bool.false_eq_true, if_false]
      by_cases hlost : MAX_ERROR < g.errors + 1
      · have h8 : g.errors = MAX_ERROR := Nat.le_antisymm herr (Nat.lt_succ_iff.mp hlost)
        simp [hlost, h8]
      · have h8 : g.errors ≠ MAX_ERROR := by
          intro hcontra
          exact hlost (by omega)
        simp [hlost, hopen, h8]
  · simp [hwon, hopen]

/-- Witness for C1 at a concrete game and guess. -/
theorem claim_C1_witness :
    (⟨['C', 'A', 'T'], ['C', '_', '_'], game_open, 8⟩ : Game).status = game_open ∧
    (⟨['C', 'A', 'T'], ['C', '_', '_'], game_open, 8⟩ : Game).errors ≤ MAX_ERROR ∧
    ((calculate_results ⟨['C', 'A', 'T'], ['C', '_', '_'], game_open, 8⟩ 'Q').errors =
        (⟨['C', 'A', 'T'], ['C', '_', '_'], game_open, 8⟩ : Game).errors + 1 ↔
      ((['C', 'A', 'T'].all (fun ch => !(ch == 'Q')) = true ∧
        (scan 'Q' ['C', 'A', 'T'] ['C', '_', '_']).2.2 = false))) := by
  refine ⟨by decide, by decide, ?_⟩
  exact (claim_C1 ⟨['C', 'A', 'T'], ['C', '_', '_'], game_open, 8⟩ 'Q'
    (by decide) (by decide)).1

/-! ### C4: win detection is idempotent -/

/-- C4: for a game satisfying the game invariant in which every non-space
position of the obscured buffer is unmasked, `calculate_results` with any
letter leaves the status `Won`, leaves the obscured buffer unchanged, and
does not increment the error count. -/
theorem claim_C4 (g : Game) (t : Char) (hinv : GameInv g)
    (hunmasked : ∀ i, i < g.secret.length →
      g.secret.getD i NUL ≠ ' ' → g.obscured.getD i NUL ≠ '_') :
    (calculate_results g t).status = game_won ∧
    (calculate_results g t).obscured = g.obscured ∧
    (calculate_results g t).errors = g.errors := by
  obtain ⟨hlen, hnou, hpos⟩ := hinv
  have hobs : g.obscured = g.secret := by
    apply list_eq_of_getD _ _ (by rw [hlen])
    intro i hi
    rcases (hpos i hi).2 with hmask | heq
    · by_cases hsp : g.secret.getD i NUL = ' '
      · rw [(hpos i hi).1 hsp, hsp]
      · exact absurd hmask (hunmasked i hi hsp)
    · exact heq
  have hscan := scan_self t g.secret hnou
  unfold calculate_results
  rw [hobs, hscan]
  simp [hobs]

/-- Witness for C4 at a concrete fully-revealed game. -/
theorem claim_C4_witness :
    GameInv ⟨['C', 'A', 'T'], ['C', 'A', 'T'], game_won, 3⟩ ∧
    (calculate_results ⟨['C', 'A', 'T'], ['C', 'A', 'T'], game_won, 3⟩ 'Z').status = game_won ∧
    (calculate_results ⟨['C', 'A', 'T'], ['C', 'A', 'T'], game_won, 3⟩ 'Z').obscured =
      (⟨['C', 'A', 'T'], ['C', 'A', 'T'], game_won, 3⟩ : Game).obscured ∧
    (calculate_results ⟨['C', 'A', 'T'], ['C', 'A', 'T'], game_won, 3⟩ 'Z').errors =
      (⟨['C', 'A', 'T'], ['C', 'A', 'T'], game_won, 3⟩ : Game).errors := by
  have hinv : GameInv ⟨['C', 'A', 'T'], ['C', 'A', 'T'], game_won, 3⟩ := by
    refine ⟨by decide, by decide, ?_⟩
    decide
  exact ⟨hinv, claim_C4 ⟨['C', 'A', 'T'], ['C', 'A', 'T'], game_won, 3⟩ 'Z' hinv (by decide)⟩

/-! ### C3: words are drawn without replacement; exhaustion is stable -/

/-- Removing the element at a valid index and putting it back in front is
a permutation of the original list. -/
theorem perm_getD_eraseIdx (l : List (List Char)) (pos : Nat) (h : pos < l.length) :
    l.Perm (l.getD pos [] :: l.eraseIdx pos) := by
  induction l generalizing pos with
  | nil => simp at h
  | cons a t ih =>
    cases pos with
    | zero => simp [List.getD_cons_zero]
    | succ n =>
      have hn : n < t.length := by simpa using Nat.lt_of_succ_lt_succ h
      exact (List.Perm.cons a (ih n hn)).trans (List.Perm.swap _ _ _)

/-- On an exhausted pool, `new_game` only marks the game impossible. -/
theorem new_game_exhausted (wordcnt r : Nat) (c : Client) (h : wordcnt ≤ c.gamecnt) :
    new_game wordcnt r c =
      { c with current_game := { c.current_game with status := game_impossible } } := by
  simp [new_game, h]

/-- `new_game` preserves the session invariant that `gamecnt` plus the
remaining pool size equals the global word count. -/
theorem new_game_inv (wordcnt r : Nat) (c : Client)
    (h : c.gamecnt + c.words.length = wordcnt) :
    (new_game wordcnt r c).gamecnt + (new_game wordcnt r c).words.length = wordcnt := by
  by_cases hex : wordcnt ≤ c.gamecnt
  · rw [new_game_exhausted wordcnt r c hex]
    exact h
  · have hlt : c.gamecnt < wordcnt := Nat.lt_of_not_le hex
    have hpos : r % (wordcnt - c.gamecnt) < c.words.length := by
      have := Nat.mod_lt r (Nat.sub_pos_of_lt hlt)
      omega
    simp only [new_game, hex, if_false]
    rw [List.length_eraseIdx]
    simp only [hpos, if_true]
    omega

/-- On an exhausted pool every subsequent New request draws nothing and
leaves the pool untouched. -/
theorem newGames_exhausted (wordcnt : Nat) (rs : List Nat) (c : Client)
    (hex : wordcnt ≤ c.gamecnt) :
    (newGames wordcnt rs c).2 = [] ∧ (newGames wordcnt rs c).1.words = c.words := by
  induction rs generalizing c with
  | nil => simp [newGames]
  | cons r0 rs0 ih =>
    simp only [newGames, if_pos hex]
    have hc1 := new_game_exhausted wordcnt r0 c hex
    have := ih (new_game wordcnt r0 c) (by rw [hc1]; exact hex)
    rw [hc1] at this
    rw [hc1]
    exact this

/-- The drawn words and the final pool of a New-request sequence permute
the initial pool (draws are without replacement). -/
theorem newGames_perm (wordcnt : Nat) (rs : List Nat) (c : Client)
    (hinv : c.gamecnt + c.words.length = wordcnt) :
    c.words.Perm ((newGames wordcnt rs c).2 ++ (newGames wordcnt rs c).1.words) := by
  induction rs generalizing c with
  | nil => simp [newGames]
  | cons r0 rs0 ih =>
    by_cases hex : wordcnt ≤ c.gamecnt
    · have hc1 := new_game_exhausted wordcnt r0 c hex
      have hinv1 : (new_game wordcnt r0 c).gamecnt +
          (new_game wordcnt r0 c).words.length = wordcnt := new_game_inv wordcnt r0 c hinv
      simp only [newGames, if_pos hex]
      have hw : (new_game wordcnt r0 c).words = c.words := by rw [hc1]
      have := ih (new_game wordcnt r0 c) hinv1
      rwa [hw] at this
    · have hlt : c.gamecnt < wordcnt := Nat.lt_of_not_le hex
      have hpos : r0 % (wordcnt - c.gamecnt) < c.words.length := by
        have := Nat.mod_lt r0 (Nat.sub_pos_of_lt hlt)
        omega
      have hinv1 := new_game_inv wordcnt r0 c hinv
      have ih1 := ih (new_game wordcnt r0 c) hinv1
      simp only [newGames, if_neg hex]
      have hwords : (new_game wordcnt r0 c).words =
          c.words.eraseIdx (r0 % (wordcnt - c.gamecnt)) := by
        simp [new_game, hex]
      have hsecret : (new_game wordcnt r0 c).current_game.secret =
          c.words.getD (r0 % (wordcnt - c.gamecnt)) [] := by
        simp [new_game, hex]
      rw [hsecret]
      refine (perm_getD_eraseIdx c.words _ hpos).trans ?_
      apply List.Perm.cons
      rw [← hwords]
      exact ih1

/-- C3: for every session satisfying the pool-size invariant and every
sequence of New requests, the pool is drawn without replacement: the
initial pool is a permutation of the drawn words followed by the final
pool (so no pool entry is ever drawn twice); a single draw picks an index
in `[0, remaining)`, removes exactly that node and shrinks the pool by
one; and once `games_played` has reached the pool size, every New request
yields `Impossible` without consuming a word (no word is drawn by any
subsequent request). -/
theorem claim_C3 (wordcnt : Nat) (rs : List Nat) (r : Nat) (c : Client)
    (hinv : c.gamecnt + c.words.length = wordcnt) :
    c.words.Perm ((newGames wordcnt rs c).2 ++ (newGames wordcnt rs c).1.words) ∧
    (c.gamecnt < wordcnt →
       r % (wordcnt - c.gamecnt) < c.words.length ∧
       (new_game wordcnt r c).words = c.words.eraseIdx (r % (wordcnt - c.gamecnt)) ∧
       (new_game wordcnt r c).words.length + 1 = c.words.length ∧
       (new_game wordcnt r c).current_game.secret =
         c.words.getD (r % (wordcnt - c.gamecnt)) []) ∧
    (wordcnt ≤ c.gamecnt →
       (new_game wordcnt r c).words = c.words ∧
       (new_game wordcnt r c).gamecnt = c.gamecnt ∧
       (new_game wordcnt r c).current_game.status = game_impossible ∧
       (newGames wordcnt rs c).2 = [] ∧ (newGames wordcnt rs c).1.words = c.words) := by
  refine ⟨newGames_perm wordcnt rs c hinv, ?_, ?_⟩
  · intro hlt
    have hex : ¬ wordcnt ≤ c.gamecnt := Nat.not_le_of_lt hlt
    have hpos : r % (wordcnt - c.gamecnt) < c.words.length := by
      have := Nat.mod_lt r (Nat.sub_pos_of_lt hlt)
      omega
    refine ⟨hpos, by simp [new_game, hex], ?_, by simp [new_game, hex]⟩
    simp only [new_game, if_neg hex]
    rw [List.length_eraseIdx]
    simp only [hpos, if_true]
    omega
  · intro hex
    exact ⟨by rw [new_game_exhausted wordcnt r c hex],
           by rw [new_game_exhausted wordcnt r c hex],
           by rw [new_game_exhausted wordcnt r c hex],
           (newGames_exhausted wordcnt rs c hex).1,
           (newGames_exhausted wordcnt rs c hex).2⟩

/-- Witness for C3: a two-word pool, two New requests. -/
theorem claim_C3_witness :
    (⟨0, [['C', 'A', 'T'], ['D', 'O', 'G']], ⟨[], [], game_new, 0⟩, 0⟩ : Client).gamecnt +
      (⟨0, [['C', 'A', 'T'], ['D', 'O', 'G']], ⟨[], [], game_new, 0⟩, 0⟩ : Client).words.length = 2 ∧
    (⟨0, [['C', 'A', 'T'], ['D', 'O', 'G']], ⟨[], [], game_new, 0⟩, 0⟩ : Client).words.Perm
      ((newGames 2 [1, 0] ⟨0, [['C', 'A', 'T'], ['D', 'O', 'G']], ⟨[], [], game_new, 0⟩, 0⟩).2 ++
       (newGames 2 [1, 0] ⟨0, [['C', 'A', 'T'], ['D', 'O', 'G']], ⟨[], [], game_new, 0⟩, 0⟩).1.words) :=
  ⟨by decide,
   (claim_C3 2 [1, 0] 1 ⟨0, [['C', 'A', 'T'], ['D', 'O', 'G']], ⟨[], [], game_new, 0⟩, 0⟩ (by decide)).1⟩

/-! ### C5: which semaphores the server posts -/

/-- C5 counterexample: the claim says the server never posts the gate
(client) semaphore, but dispatching a terminate request does post it
(hangman-server.c line 410, `sem_post(clt_sem)`): at this concrete
terminate dispatch, `post_clt` is among the posts performed. -/
theorem claim_C5_counterexample :
    (dispatch 1 [['C', 'A', 'T']] ⟨[], [], game_new, 0⟩ 0
        ⟨[⟨0, [['C', 'A', 'T']], ⟨[], [], game_new, 0⟩, 0⟩], 1⟩
        ⟨0, 0, game_new, 'A', [], true⟩).map
      (fun x => decide (SemOp.post_clt ∈ x.2.2)) = some true := by
  decide

/-- C5 amended: the server posts no gate semaphore while dispatching a
normal (non-terminate) request — those dispatches post exactly the
response-ready semaphore; it posts the gate semaphore exactly once when
dispatching a terminate request (on behalf of the departed client, which
exits without releasing the gate), and once per tracked client on the
shutdown path `free_resources`. -/
theorem claim_C5_amended (wordcnt : Nat) (master : List (List Char)) (garbage : Game)
    (r : Nat) (st : ServerState) (shm : Shm)
    (st' : ServerState) (shm' : Shm) (ops : List SemOp)
    (h : dispatch wordcnt master garbage r st shm = some (st', shm', ops)) :
    (shm.terminate = false → ops = [SemOp.post_ret]) ∧
    (shm.terminate = true → ops = [SemOp.post_clt]) ∧
    (free_resources st shm).2 = st.clients.map (fun _ => SemOp.post_clt) := by
  unfold dispatch at h
  cases hres : resolve_client master garbage st shm with
  | none => rw [hres] at h; exact absurd h (by simp)
  | some p =>
    rw [hres, Option.map_some'] at h
    refine ⟨?_, ?_, rfl⟩ <;> intro hterm <;> rw [hterm] at h
    · rw [if_neg (by simp)] at h
      injection h with h1
      injection h1 with h2 h3
      injection h3 with h4 h5
      exact h5.symm
    · rw [if_pos rfl] at h
      injection h with h1
      injection h1 with h2 h3
      injection h3 with h4 h5
      exact h5.symm

/-- Witness for C5 amended at a concrete non-terminate dispatch. -/
theorem claim_C5_amended_witness :
    ((⟨0, -1, game_new, 'A', [], false⟩ : Shm).terminate = false →
       ([SemOp.post_ret] : List SemOp) = [SemOp.post_ret]) ∧
    ((⟨0, -1, game_new, 'A', [], false⟩ : Shm).terminate = true →
       ([SemOp.post_ret] : List SemOp) = [SemOp.post_clt]) ∧
    (free_resources serverState0 ⟨0, -1, game_new, 'A', [], false⟩).2 =
      serverState0.clients.map (fun _ => SemOp.post_clt) :=
  claim_C5_amended 1 [['C', 'A', 'T']] ⟨[], [], game_new, 0⟩ 0 serverState0
    ⟨0, -1, game_new, 'A', [], false⟩
    ⟨[⟨0, [], ⟨['C', 'A', 'T'], ['_', '_', '_'], game_open, 0⟩, 1⟩], 1⟩
    ⟨0, 0, game_open, 'A', ['_', '_', '_'], false⟩
    [SemOp.post_ret] (by decide)

/-! ### C6: the terminate-dispatch branch -/

/-- C6 counterexample: the claim says the terminate dispatch signals
response-ready; in fact it posts no response-ready semaphore (it posts
the client/gate semaphore instead, hangman-server.c line 410): at this
concrete terminate dispatch, `post_ret` is not among the posts. -/
theorem claim_C6_counterexample :
    (dispatch 2 [] ⟨[], [], game_new, 0⟩ 0 ⟨[⟨1, [], ⟨[], [], game_new, 0⟩, 0⟩], 2⟩
        ⟨3, 1, game_open, 'Q', ['_'], true⟩).map
      (fun x => decide (SemOp.post_ret ∈ x.2.2)) = some false := by
  decide

/-- C6 amended: dispatching a terminate request for a known client
removes that client's session, clears the mailbox terminate flag, posts
the gate (client) semaphore — not response-ready — and leaves every other
mailbox field (clientno, status, errors, tried_char, word) unchanged: the
response contains no game update. -/
theorem claim_C6_amended (wordcnt : Nat) (master : List (List Char)) (garbage : Game)
    (r : Nat) (st : ServerState) (shm : Shm) (cur : Client)
    (hterm : shm.terminate = true) (hreg : shm.clientno ≠ -1)
    (hfind : findClient st.clients shm.clientno = some cur) :
    dispatch wordcnt master garbage r st shm =
      some ({ st with clients := removeClient st.clients cur.clientno },
            { shm with terminate := false },
            [SemOp.post_clt]) := by
  have hres : resolve_client master garbage st shm = some (cur, st) := by
    unfold resolve_client
    rw [if_neg hreg, hfind]
  unfold dispatch
  rw [hres, Option.map_some', if_pos hterm]

/-- Witness for C6 amended at a concrete terminate dispatch. -/
theorem claim_C6_amended_witness :
    (⟨5, 0, game_open, 'Q', ['_'], true⟩ : Shm).terminate = true ∧
    dispatch 1 [['C', 'A', 'T']] ⟨[], [], game_new, 0⟩ 0
        ⟨[⟨0, [], ⟨[], [], game_new, 0⟩, 1⟩], 1⟩
        ⟨5, 0, game_open, 'Q', ['_'], true⟩ =
      some (⟨[], 1⟩, ⟨5, 0, game_open, 'Q', ['_'], false⟩, [SemOp.post_clt]) := by
  refine ⟨rfl, ?_⟩
  have h := claim_C6_amended 1 [['C', 'A', 'T']] ⟨[], [], game_new, 0⟩ 0
    ⟨[⟨0, [], ⟨[], [], game_new, 0⟩, 1⟩], 1⟩
    ⟨5, 0, game_open, 'Q', ['_'], true⟩ ⟨0, [], ⟨[], [], game_new, 0⟩, 1⟩
    rfl (by decide) (by decide)
  rw [h]
  decide

/-! ### C9: a client observing the terminate flag -/

/-- C9: a client that acquires the gate and finds the mailbox terminate
flag set exits with failure status (exit code 1) without writing any
request field into the mailbox (the mailbox is returned unchanged) and
without posting the request-pending semaphore (no semaphore posts at
all). -/
theorem claim_C9 (shm : Shm) (game_status : game_state) (clientno : Int) (c : Char)
    (h : shm.terminate = true) :
    client_send_request shm game_status clientno c = (shm, [], some 1) := by
  simp [client_send_request, h]

/-- Witness for C9 at a concrete mailbox with the terminate flag set. -/
theorem claim_C9_witness :
    (⟨2, 7, game_open, 'A', ['C', '_'], true⟩ : Shm).terminate = true ∧
    client_send_request ⟨2, 7, game_open, 'A', ['C', '_'], true⟩ game_open 7 'B' =
      (⟨2, 7, game_open, 'A', ['C', '_'], true⟩, [], some 1) :=
  ⟨rfl, claim_C9 ⟨2, 7, game_open, 'A', ['C', '_'], true⟩ game_open 7 'B' rfl⟩

/-! ### C2: the concrete CAT scenario -/

/-- A dispatch that is not a New request never consults `rand()`. -/
theorem dispatch_r_irrel (wordcnt : Nat) (master : List (List Char)) (garbage : Game)
    (r : Nat) (st : ServerState) (shm : Shm) (h : shm.status ≠ game_new) :
    dispatch wordcnt master garbage r st shm =
      dispatch wordcnt master garbage 0 st shm := by
  unfold dispatch
  simp [handle_game, h]

/-- A dispatch for an already-registered client never reads the
indeterminate malloc content. -/
theorem dispatch_garbage_irrel (wordcnt : Nat) (master : List (List Char))
    (g g' : Game) (r : Nat) (st : ServerState) (shm : Shm) (h : shm.clientno ≠ -1) :
    dispatch wordcnt master g r st shm = dispatch wordcnt master g' r st shm := by
  unfold dispatch resolve_client
  rw [if_neg h, if_neg h]

/-- A dispatch whose resolved session has exhausted its pool never
consults `rand()` either. -/
theorem dispatch_r_irrel_exhausted (wordcnt : Nat) (master : List (List Char))
    (garbage : Game) (r : Nat) (st : ServerState) (shm : Shm)
    (h : (resolve_client master garbage st shm).map
        (fun p => decide (wordcnt ≤ p.1.gamecnt)) ≠ some false) :
    dispatch wordcnt master garbage r st shm =
      dispatch wordcnt master garbage 0 st shm := by
  unfold dispatch
  cases hres : resolve_client master garbage st shm with
  | none => rfl
  | some p =>
    have hex : wordcnt ≤ p.1.gamecnt := by
      rw [hres, Option.map_some'] at h
      simpa using h
    simp only [Option.map_some', handle_game]
    rw [new_game_exhausted wordcnt r p.1 hex, new_game_exhausted wordcnt 0 p.1 hex]

/-- C2: with the word pool ["CAT"] (max errors 8), whatever values
`rand()` returns and whatever the malloc'd registration garbage is, the
request sequence New, guess C, guess Z, guess A, guess T, New produces
exactly the responses (status, word, errors): (Open, "___", 0),
(Open, "C__", 0), (Open, "C__", 1), (Open, "CA_", 1), (Won, "CAT", 1),
and finally Impossible (the pool is exhausted). -/
theorem claim_C2 (r1 r2 r3 r4 r5 r6 : Nat) (g1 g2 g3 g4 g5 g6 : Game) :
    (runServer 1 [['C', 'A', 'T']]
      [ (r1, g1, ⟨-1, game_new, 'C', false⟩),
        (r2, g2, ⟨0, game_open, 'C', false⟩),
        (r3, g3, ⟨0, game_open, 'Z', false⟩),
        (r4, g4, ⟨0, game_open, 'A', false⟩),
        (r5, g5, ⟨0, game_open, 'T', false⟩),
        (r6, g6, ⟨0, game_new, 'C', false⟩) ] serverState0 shm0).map
      (fun x => x.2.2.map (fun s => (s.status, s.word, s.errors))) =
    some [ (game_open, ['_', '_', '_'], 0),
           (game_open, ['C', '_', '_'], 0),
           (game_open, ['C', '_', '_'], 1),
           (game_open, ['C', 'A', '_'], 1),
           (game_won, ['C', 'A', 'T'], 1),
           (game_impossible, ['C', 'A', 'T'], 1) ] := by
  have hd1 : dispatch 1 [['C', 'A', 'T']] g1 r1 serverState0
      (writeRequest shm0 ⟨-1, game_new, 'C', false⟩) =
      some (⟨[⟨0, [], ⟨['C', 'A', 'T'], ['_', '_', '_'], game_open, 0⟩, 1⟩], 1⟩,
            ⟨0, 0, game_open, 'C', ['_', '_', '_'], false⟩, [SemOp.post_ret]) := by
    simp [dispatch, resolve_client, writeRequest, shm0, serverState0, handle_game,
      new_game, Nat.mod_one, setClient, NUL]
  have hd2 : dispatch 1 [['C', 'A', 'T']] g2 r2
      ⟨[⟨0, [], ⟨['C', 'A', 'T'], ['_', '_', '_'], game_open, 0⟩, 1⟩], 1⟩
      (writeRequest ⟨0, 0, game_open, 'C', ['_', '_', '_'], false⟩
        ⟨0, game_open, 'C', false⟩) =
      some (⟨[⟨0, [], ⟨['C', 'A', 'T'], ['C', '_', '_'], game_open, 0⟩, 1⟩], 1⟩,
            ⟨0, 0, game_open, 'C', ['C', '_', '_'], false⟩, [SemOp.post_ret]) := by
    rw [dispatch_garbage_irrel 1 _ g2 ⟨[], [], game_new, 0⟩ r2 _ _ (by decide)]
    rw [dispatch_r_irrel 1 _ ⟨[], [], game_new, 0⟩ r2 _ _ (by decide)]
    decide
  have hd3 : dispatch 1 [['C', 'A', 'T']] g3 r3
      ⟨[⟨0, [], ⟨['C', 'A', 'T'], ['C', '_', '_'], game_open, 0⟩, 1⟩], 1⟩
      (writeRequest ⟨0, 0, game_open, 'C', ['C', '_', '_'], false⟩
        ⟨0, game_open, 'Z', false⟩) =
      some (⟨[⟨0, [], ⟨['C', 'A', 'T'], ['C', '_', '_'], game_open, 1⟩, 1⟩], 1⟩,
            ⟨1, 0, game_open, 'Z', ['C', '_', '_'], false⟩, [SemOp.post_ret]) := by
    rw [dispatch_garbage_irrel 1 _ g3 ⟨[], [], game_new, 0⟩ r3 _ _ (by decide)]
    rw [dispatch_r_irrel 1 _ ⟨[], [], game_new, 0⟩ r3 _ _ (by decide)]
    decide
  have hd4 : dispatch 1 [['C', 'A', 'T']] g4 r4
      ⟨[⟨0, [], ⟨['C', 'A', 'T'], ['C', '_', '_'], game_open, 1⟩, 1⟩], 1⟩
      (writeRequest ⟨1, 0, game_open, 'Z', ['C', '_', '_'], false⟩
        ⟨0, game_open, 'A', false⟩) =
      some (⟨[⟨0, [], ⟨['C', 'A', 'T'], ['C', 'A', '_'], game_open, 1⟩, 1⟩], 1⟩,
            ⟨1, 0, game_open, 'A', ['C', 'A', '_'], false⟩, [SemOp.post_ret]) := by
    rw [dispatch_garbage_irrel 1 _ g4 ⟨[], [], game_new, 0⟩ r4 _ _ (by decide)]
    rw [dispatch_r_irrel 1 _ ⟨[], [], game_new, 0⟩ r4 _ _ (by decide)]
    decide
  have hd5 : dispatch 1 [['C', 'A', 'T']] g5 r5
      ⟨[⟨0, [], ⟨['C', 'A', 'T'], ['C', 'A', '_'], game_open, 1⟩, 1⟩], 1⟩
      (writeRequest ⟨1, 0, game_open, 'A', ['C', 'A', '_'], false⟩
        ⟨0, game_open, 'T', false⟩) =
      some (⟨[⟨0, [], ⟨['C', 'A', 'T'], ['C', 'A', 'T'], game_won, 1⟩, 1⟩], 1⟩,
            ⟨1, 0, game_won, 'T', ['C', 'A', 'T'], false⟩, [SemOp.post_ret]) := by
    rw [dispatch_garbage_irrel 1 _ g5 ⟨[], [], game_new, 0⟩ r5 _ _ (by decide)]
    rw [dispatch_r_irrel 1 _ ⟨[], [], game_new, 0⟩ r5 _ _ (by decide)]
    decide
  have hd6 : dispatch 1 [['C', 'A', 'T']] g6 r6
      ⟨[⟨0, [], ⟨['C', 'A', 'T'], ['C', 'A', 'T'], game_won, 1⟩, 1⟩], 1⟩
      (writeRequest ⟨1, 0, game_won, 'T', ['C', 'A', 'T'], false⟩
        ⟨0, game_new, 'C', false⟩) =
      some (⟨[⟨0, [], ⟨['C', 'A', 'T'], ['C', 'A', 'T'], game_impossible, 1⟩, 1⟩], 1⟩,
            ⟨1, 0, game_impossible, 'C', ['C', 'A', 'T'], false⟩, [SemOp.post_ret]) := by
    rw [dispatch_garbage_irrel 1 _ g6 ⟨[], [], game_new, 0⟩ r6 _ _ (by decide)]
    rw [dispatch_r_irrel_exhausted 1 _ ⟨[], [], game_new, 0⟩ r6 _ _ (by decide)]
    decide
  simp only [runServer, hd1, hd2, hd3, hd4, hd5, hd6]
  decide

/-! ### C7: the word loader mangles lines after the first -/

/-- C7 (code bug): `wordlist_read` never resets the write pointer `ptr`
between input lines (wordlist.c line 59 initializes it once, before the
line loop), so from the second non-blank line on, the filtered characters
are written at the previous line's offset while the line's raw prefix
stays in the buffer. On the input lines "A" and "1B" the loader returns
the words "A" and "1B" (with count 2): the non-letter '1' survives,
whereas per line filtering — as the claim and the header documentation
describe — would produce "A" and "B". -/
theorem claim_C7_bug :
    wordlist_read [['A'], ['1', 'B']] = some ([['A'], ['1', 'B']], 2) ∧
    load_words_spec [['A'], ['1', 'B']] = [['A'], ['B']] ∧
    (wordlist_read [['A'], ['1', 'B']]).map Prod.fst ≠
      some (load_words_spec [['A'], ['1', 'B']]) := by
  refine ⟨by rfl, by rfl, by decide⟩

/-! ### C8: the error counter bound over reachable states -/

theorem no_mask_getD (w : List Char) (hw : no_mask w) (i : Nat) (hi : i < w.length) :
    w.getD i NUL ≠ '_' := by
  rw [List.getD_eq_getElem _ _ hi]
  exact hw _ (List.getElem_mem hi)

/-- `calculate_results` preserves the game invariant. -/
theorem GameBound_calculate (g : Game) (t : Char) (h : GameBound g) :
    GameBound (calculate_results g t) := by
  obtain ⟨hs, he, hr⟩ := h
  unfold calculate_results
  dsimp only
  rcases hwon : (scan t g.secret g.obscured).2.2 with _ | _
  · have hnotrev : ¬ MAX_ERROR < g.errors := by
      intro hgt
      have := scan_won_of_revealed t g.secret g.obscured hs (hr hgt)
      rw [hwon] at this
      exact Bool.false_ne_true this
    have he8 : g.errors ≤ MAX_ERROR := Nat.not_lt.mp hnotrev
    rcases herror : (scan t g.secret g.obscured).2.1 with _ | _
    · rw [if_neg (by simp), if_pos rfl]
      exact ⟨hs, he, fun hgt => absurd hgt hnotrev⟩
    · rw [if_neg (by simp), if_neg (by simp)]
      by_cases hlost : MAX_ERROR < g.errors + 1
      · rw [if_pos hlost]
        refine ⟨hs, by dsimp only; omega, fun _ => ?_⟩
        intro i hi
        exact no_mask_getD g.secret hs i hi
      · rw [if_neg hlost]
        refine ⟨hs, by dsimp only; omega, fun hgt => ?_⟩
        dsimp only at hgt
        exact absurd hgt (by omega)
  · rw [if_pos rfl]
    refine ⟨hs, he, fun _ => ?_⟩
    intro i hi
    exact scan_revealed_of_won t g.secret g.obscured hwon i hi

/-- A `new_game` call that actually draws a word establishes the session
invariant outright: the fresh game is built from scratch, so nothing is
needed of the previous game (in particular not of the indeterminate game
of a freshly registered client). -/
theorem SInv_new_game_draw (wordcnt r : Nat) (c : Client)
    (hw : ∀ w ∈ c.words, no_mask w) (hlt : c.gamecnt < wordcnt) :
    SInv (new_game wordcnt r c) := by
  have hex : ¬ wordcnt ≤ c.gamecnt := Nat.not_le_of_lt hlt
  simp only [new_game, if_neg hex]
  refine ⟨⟨?_, by dsimp only; omega, fun hgt => ?_⟩, ?_⟩
  · by_cases hpos : r % (wordcnt - c.gamecnt) < c.words.length
    · have hmem : c.words.getD (r % (wordcnt - c.gamecnt)) [] ∈ c.words := by
        rw [List.getD_eq_getElem _ _ hpos]
        exact List.getElem_mem hpos
      exact hw _ hmem
    · intro ch hch
      dsimp only at hch
      rw [List.getD_eq_default _ _ (Nat.not_lt.mp hpos)] at hch
      exact absurd hch (List.not_mem_nil ch)
  · dsimp only at hgt
    exact absurd hgt (by omega)
  · intro w hw'
    exact hw w (List.mem_of_mem_eraseIdx hw')

/-- `new_game` preserves the session invariant. -/
theorem SInv_new_game (wordcnt r : Nat) (c : Client) (h : SInv c) :
    SInv (new_game wordcnt r c) := by
  obtain ⟨⟨hs, he, hr⟩, hw⟩ := h
  by_cases hex : wordcnt ≤ c.gamecnt
  · rw [new_game_exhausted wordcnt r c hex]
    exact ⟨⟨hs, he, fun hgt => hr hgt⟩, hw⟩
  · exact SInv_new_game_draw wordcnt r c hw (Nat.lt_of_not_le hex)

/-- `handle_game` preserves the session invariant. -/
theorem SInv_handle_game (wordcnt r : Nat) (shm : Shm) (cur : Client) (h : SInv cur) :
    SInv (handle_game wordcnt r shm cur) := by
  unfold handle_game
  by_cases hn : shm.status = game_new
  · rw [if_pos hn]
    exact SInv_new_game wordcnt r cur h
  · rw [if_neg hn]
    exact ⟨GameBound_calculate cur.current_game shm.tried_char h.1, h.2⟩

theorem findClient_mem (cs : List Client) (n : Int) (c : Client)
    (h : findClient cs n = some c) : c ∈ cs := by
  induction cs with
  | nil => simp [findClient] at h
  | cons a rest ih =>
    unfold findClient at h
    by_cases ha : (a.clientno : Int) = n
    · rw [if_pos ha] at h
      injection h with h1
      exact h1 ▸ List.mem_cons_self a rest
    · rw [if_neg ha] at h
      exact List.mem_cons_of_mem a (ih h)

theorem mem_setClient (cs : List Client) (n : Int) (x c : Client)
    (h : c ∈ setClient cs n x) : c = x ∨ c ∈ cs := by
  induction cs with
  | nil => simp [setClient] at h
  | cons a rest ih =>
    unfold setClient at h
    by_cases ha : (a.clientno : Int) = n
    · rw [if_pos ha] at h
      rcases List.mem_cons.mp h with h1 | h1
      · exact Or.inl h1
      · exact Or.inr (List.mem_cons_of_mem a h1)
    · rw [if_neg ha] at h
      rcases List.mem_cons.mp h with h1 | h1
      · exact Or.inr (h1 ▸ List.mem_cons_self a rest)
      · rcases ih h1 with h2 | h2
        · exact Or.inl h2
        · exact Or.inr (List.mem_cons_of_mem a h2)

theorem mem_removeClient (cs : List Client) (n : Int) (c : Client)
    (h : c ∈ removeClient cs n) : c ∈ cs := by
  induction cs with
  | nil => simp [removeClient] at h
  | cons a rest ih =>
    unfold removeClient at h
    by_cases ha : (a.clientno : Int) = n
    · rw [if_pos ha] at h
      exact List.mem_cons_of_mem a h
    · rw [if_neg ha] at h
      rcases List.mem_cons.mp h with h1 | h1
      · exact h1 ▸ List.mem_cons_self a rest
      · exact List.mem_cons_of_mem a (ih h1)

/-- Replacing the head client by number yields exactly the head swap. -/
theorem setClient_head (a : Client) (rest : List Client) (x : Client) :
    setClient (a :: rest) (a.clientno : Int) x = x :: rest := by
  unfold setClient
  rw [if_pos rfl]

/-- Removing the head client by number drops exactly the head. -/
theorem removeClient_head (a : Client) (rest : List Client) :
    removeClient (a :: rest) (a.clientno : Int) = rest := by
  unfold removeClient
  rw [if_pos rfl]

/-- What session resolution can produce: either a freshly registered
client (for `clientno = -1`, carrying the indeterminate malloc'd game)
together with the extended table, or a client found in the unchanged
table. -/
theorem resolve_client_cases (master : List (List Char)) (garbage : Game)
    (st : ServerState) (shm : Shm) (p : Client × ServerState)
    (h : resolve_client master garbage st shm = some p) :
    (shm.clientno = -1 ∧
       p = (⟨st.client_count, master, garbage, 0⟩,
            ⟨⟨st.client_count, master, garbage, 0⟩ :: st.clients, st.client_count + 1⟩)) ∨
    (p.1 ∈ st.clients ∧ p.2 = st) := by
  unfold resolve_client at h
  by_cases hreg : shm.clientno = -1
  · rw [if_pos hreg] at h
    injection h with h1
    exact Or.inl ⟨hreg, h1.symm⟩
  · rw [if_neg hreg] at h
    cases hfind : findClient st.clients shm.clientno with
    | none => rw [hfind] at h; exact absurd h (by simp)
    | some cur =>
      rw [hfind] at h
      injection h with h1
      refine Or.inr ?_
      rw [← h1]
      exact ⟨findClient_mem st.clients shm.clientno cur hfind, rfl⟩

/-- One dispatch preserves the session invariant for every tracked client
and keeps the mailbox error field bounded, provided the pool is non-empty
and a registration request is a terminate or New request (so the
indeterminate malloc'd game is either discarded or fully overwritten by
`new_game` before anything is read from it). It also leaves the mailbox
terminate flag cleared. -/
theorem dispatch_SInv (wordcnt : Nat) (master : List (List Char)) (garbage : Game)
    (r : Nat) (st : ServerState) (shm : Shm)
    (st' : ServerState) (shm' : Shm) (ops : List SemOp)
    (hmaster : ∀ w ∈ master, no_mask w)
    (hpool : 0 < wordcnt)
    (hst : ∀ c ∈ st.clients, SInv c)
    (hshm : shm.errors ≤ MAX_ERROR + 1)
    (hfresh : shm.clientno = -1 → shm.terminate = false → shm.status = game_new)
    (h : dispatch wordcnt master garbage r st shm = some (st', shm', ops)) :
    (∀ c ∈ st'.clients, SInv c) ∧ shm'.errors ≤ MAX_ERROR + 1 ∧
      shm'.terminate = false := by
  unfold dispatch at h
  cases hres : resolve_client master garbage st shm with
  | none => rw [hres] at h; exact absurd h (by simp)
  | some p =>
    rw [hres, Option.map_some'] at h
    rcases resolve_client_cases master garbage st shm p hres with ⟨hreg, hnewp⟩ | ⟨hmem, hp2eq⟩
    · subst hnewp
      by_cases ht : shm.terminate = true
      · rw [if_pos ht] at h
        injection h with h1
        injection h1 with h2 h3
        injection h3 with h4 h5
        refine ⟨?_, ?_, ?_⟩
        · rw [← h2]
          intro c hc
          dsimp only at hc
          rw [removeClient_head] at hc
          exact hst c hc
        · rw [← h4]
          exact hshm
        · rw [← h4]
      · rw [if_neg ht] at h
        injection h with h1
        injection h1 with h2 h3
        injection h3 with h4 h5
        have htf : shm.terminate = false := by
          revert ht; cases shm.terminate <;> simp
        have hstat : shm.status = game_new := hfresh hreg htf
        have hhg : handle_game wordcnt r shm ⟨st.client_count, master, garbage, 0⟩ =
            new_game wordcnt r ⟨st.client_count, master, garbage, 0⟩ := by
          unfold handle_game
          rw [if_pos hstat]
        have hc2 : SInv (handle_game wordcnt r shm ⟨st.client_count, master, garbage, 0⟩) := by
          rw [hhg]
          exact SInv_new_game_draw wordcnt r ⟨st.client_count, master, garbage, 0⟩ hmaster hpool
        refine ⟨?_, ?_, ?_⟩
        · rw [← h2]
          intro c hc
          dsimp only at hc
          rw [setClient_head] at hc
          rcases List.mem_cons.mp hc with h6 | h6
          · exact h6 ▸ hc2
          · exact hst c h6
        · rw [← h4]
          exact hc2.1.2.1
        · rw [← h4]
          exact htf
    · have hp1 : SInv p.1 := hst p.1 hmem
      by_cases ht : shm.terminate = true
      · rw [if_pos ht] at h
        injection h with h1
        injection h1 with h2 h3
        injection h3 with h4 h5
        refine ⟨?_, ?_, ?_⟩
        · rw [← h2]
          intro c hc
          have hc' := mem_removeClient p.2.clients p.1.clientno c hc
          rw [hp2eq] at hc'
          exact hst c hc'
        · rw [← h4]
          exact hshm
        · rw [← h4]
      · rw [if_neg ht] at h
        injection h with h1
        injection h1 with h2 h3
        injection h3 with h4 h5
        have htf : shm.terminate = false := by
          revert ht; cases shm.terminate <;> simp
        have hc2 : SInv (handle_game wordcnt r shm p.1) :=
          SInv_handle_game wordcnt r shm p.1 hp1
        refine ⟨?_, ?_, ?_⟩
        · rw [← h2]
          intro c hc
          rcases mem_setClient p.2.clients p.1.clientno _ c hc with h6 | h6
          · exact h6 ▸ hc2
          · rw [hp2eq] at h6
            exact hst c h6
        · rw [← h4]
          exact hc2.1.2.1
        · rw [← h4]
          exact htf

/-- The client-side request write never touches the mailbox error field. -/
theorem writeRequest_errors (shm : Shm) (q : Request) :
    (writeRequest shm q).errors = shm.errors := by
  unfold writeRequest
  by_cases hq : q.terminate = true
  · rw [if_pos hq]
  · rw [if_neg hq]

/-- The client-side request write always writes the request's client
number. -/
theorem writeRequest_clientno (shm : Shm) (q : Request) :
    (writeRequest shm q).clientno = q.clientno := by
  unfold writeRequest
  by_cases hq : q.terminate = true
  · rw [if_pos hq]
  · rw [if_neg hq]

/-- Starting from a cleared terminate flag, the written mailbox's
terminate flag equals the request's. -/
theorem writeRequest_terminate (shm : Shm) (q : Request) (h : shm.terminate = false) :
    (writeRequest shm q).terminate = q.terminate := by
  unfold writeRequest
  by_cases hq : q.terminate = true
  · rw [if_pos hq, hq]
  · have hq' : q.terminate = false := by
      revert hq; cases q.terminate <;> simp
    rw [if_neg hq]
    dsimp only
    rw [h, hq']

/-- A non-terminate request writes its own status field. -/
theorem writeRequest_status (shm : Shm) (q : Request) (h : q.terminate = false) :
    (writeRequest shm q).status = q.status := by
  unfold writeRequest
  rw [if_neg (by rw [h]; simp)]

/-- The dispatch loop preserves the session invariant and the error bound
over a whole run, for request streams whose registration requests are
terminate or New requests. -/
theorem runServer_SInv (wordcnt : Nat) (master : List (List Char))
    (hmaster : ∀ w ∈ master, no_mask w) (hpool : 0 < wordcnt) :
    ∀ (reqs : List (Nat × Game × Request)) (st : ServerState) (shm : Shm)
      (st' : ServerState) (shm' : Shm) (resps : List Shm),
      (∀ x ∈ reqs, x.2.2.clientno = -1 → x.2.2.terminate = false →
         x.2.2.status = game_new) →
      (∀ c ∈ st.clients, SInv c) → shm.errors ≤ MAX_ERROR + 1 →
      shm.terminate = false →
      runServer wordcnt master reqs st shm = some (st', shm', resps) →
      (∀ c ∈ st'.clients, SInv c) ∧ shm'.errors ≤ MAX_ERROR + 1 ∧
        ∀ x ∈ resps, x.errors ≤ MAX_ERROR + 1 := by
  intro reqs
  induction reqs with
  | nil =>
    intro st shm st' shm' resps hreqs hst hshm hterm h
    simp only [runServer, Option.some.injEq, Prod.mk.injEq] at h
    obtain ⟨h1, h2, h3⟩ := h
    subst h1; subst h2; subst h3
    exact ⟨hst, hshm, fun x hx => absurd hx (List.not_mem_nil x)⟩
  | cons a rest ih =>
    intro st shm st' shm' resps hreqs hst hshm hterm h
    obtain ⟨r, garbage, q⟩ := a
    simp only [runServer] at h
    cases hd : dispatch wordcnt master garbage r st (writeRequest shm q) with
    | none => rw [hd] at h; exact absurd h (by simp)
    | some p1 =>
      obtain ⟨st1, shm1, ops⟩ := p1
      rw [hd] at h
      dsimp only at h
      have hq := hreqs (r, garbage, q) (List.mem_cons_self _ _)
      have hfresh : (writeRequest shm q).clientno = -1 →
          (writeRequest shm q).terminate = false →
          (writeRequest shm q).status = game_new := by
        intro hc htf
        rw [writeRequest_clientno] at hc
        rw [writeRequest_terminate shm q hterm] at htf
        rw [writeRequest_status shm q htf]
        exact hq hc htf
      have hstep := dispatch_SInv wordcnt master garbage r st (writeRequest shm q)
        st1 shm1 ops hmaster hpool hst
        (by rw [writeRequest_errors]; exact hshm) hfresh hd
      cases hrest : runServer wordcnt master rest st1 shm1 with
      | none => rw [hrest] at h; exact absurd h (by simp)
      | some p2 =>
        obtain ⟨st2, shm2, resps2⟩ := p2
        rw [hrest] at h
        dsimp only at h
        injection h with h1
        injection h1 with h2 h3
        injection h3 with h4 h5
        have hrec := ih st1 shm1 st2 shm2 resps2
          (fun x hx => hreqs x (List.mem_cons_of_mem _ hx))
          hstep.1 hstep.2.1 hstep.2.2 hrest
        subst h2; subst h4
        refine ⟨hrec.1, hrec.2.1, ?_⟩
        rw [← h5]
        intro x hx
        rcases List.mem_cons.mp hx with h6 | h6
        · exact h6 ▸ hstep.2.1
        · exact hrec.2.2 x h6

/-- C8 counterexample: the claim bounds the error counter by `MAX_ERROR`,
but a reachable run exceeds it: with the pool ["CAT"], one New request
followed by nine wrong guesses of Z leaves the mailbox error field at 9,
which is greater than `MAX_ERROR = 8` (the count reaches `MAX_ERROR + 1`
on the transition to Lost). -/
theorem claim_C8_counterexample :
    (runServer 1 [['C', 'A', 'T']]
      ((0, (⟨[], [], game_new, 0⟩ : Game), (⟨-1, game_new, 'Z', false⟩ : Request)) ::
        List.replicate 9
          (0, (⟨[], [], game_new, 0⟩ : Game), (⟨0, game_open, 'Z', false⟩ : Request)))
      serverState0 shm0).map (fun x => x.2.1.errors) = some 9 ∧
    MAX_ERROR < 9 := by
  refine ⟨by decide, by decide⟩

/-- C8 amended: after any sequence of dispatched requests from the empty
session table and the zero-filled mailbox — with a non-empty master pool
whose words never contain the mask character, and every registration
request (mailbox `clientno = -1`) being a terminate or New request, as
the protocol-following client always sends — every session's error
counter is bounded by `MAX_ERROR + 1`, and so are the mailbox error field
and the error field of every response. (Outside these conditions the C
code itself guarantees no bound: a registration dispatched against an
empty pool, or whose first request is a guess, reads the freshly
malloc'd, uninitialized game — modelled here by the universally
quantified per-request `garbage` games.) -/
theorem claim_C8_amended (wordcnt : Nat) (master : List (List Char))
    (reqs : List (Nat × Game × Request)) (st' : ServerState) (shm' : Shm)
    (resps : List Shm)
    (hmaster : ∀ w ∈ master, ∀ ch ∈ w, ch ≠ '_')
    (hpool : 0 < wordcnt)
    (hreg : ∀ x ∈ reqs, x.2.2.clientno = -1 → x.2.2.terminate = false →
       x.2.2.status = game_new)
    (h : runServer wordcnt master reqs serverState0 shm0 = some (st', shm', resps)) :
    (∀ c ∈ st'.clients, c.current_game.errors ≤ MAX_ERROR + 1) ∧
    shm'.errors ≤ MAX_ERROR + 1 ∧
    (∀ x ∈ resps, x.errors ≤ MAX_ERROR + 1) := by
  have hbase : ∀ c ∈ serverState0.clients, SInv c := by
    intro c hc
    exact absurd hc (List.not_mem_nil c)
  have := runServer_SInv wordcnt master hmaster hpool reqs serverState0 shm0 st' shm'
    resps hreg hbase (by decide) (by decide) h
  exact ⟨fun c hc => (this.1 c hc).1.2.1, this.2.1, this.2.2⟩

/-- Witness for C8 amended: the one-request CAT run. -/
theorem claim_C8_amended_witness :
    (∀ c ∈ (⟨[⟨0, [], ⟨['C', 'A', 'T'], ['_', '_', '_'], game_open, 0⟩, 1⟩], 1⟩ :
        ServerState).clients, c.current_game.errors ≤ MAX_ERROR + 1) ∧
    (⟨0, 0, game_open, 'C', ['_', '_', '_'], false⟩ : Shm).errors ≤ MAX_ERROR + 1 ∧
    (∀ x ∈ [(⟨0, 0, game_open, 'C', ['_', '_', '_'], false⟩ : Shm)],
      x.errors ≤ MAX_ERROR + 1) :=
  claim_C8_amended 1 [['C', 'A', 'T']]
    [(0, ⟨[], [], game_new, 0⟩, ⟨-1, game_new, 'C', false⟩)]
    ⟨[⟨0, [], ⟨['C', 'A', 'T'], ['_', '_', '_'], game_open, 0⟩, 1⟩], 1⟩
    ⟨0, 0, game_open, 'C', ['_', '_', '_'], false⟩
    [⟨0, 0, game_open, 'C', ['_', '_', '_'], false⟩]
    (by decide) (by decide) (by decide) (by decide)

/-! ### C10: games played plus remaining pool equals the master pool size -/

/-- `handle_game` preserves the pool-size invariant: a New request either
leaves `gamecnt` and the pool untouched (exhausted) or trades one pool
node for one `gamecnt` increment; guess handling touches neither. -/
theorem handle_game_inv10 (wordcnt r : Nat) (shm : Shm) (cur : Client)
    (h : cur.gamecnt + cur.words.length = wordcnt) :
    (handle_game wordcnt r shm cur).gamecnt +
      (handle_game wordcnt r shm cur).words.length = wordcnt := by
  unfold handle_game
  by_cases hn : shm.status = game_new
  · rw [if_pos hn]
    exact new_game_inv wordcnt r cur h
  · rw [if_neg hn]
    exact h

/-- One dispatch preserves the pool-size invariant for every tracked
client (including the freshly created one, which starts with
`gamecnt = 0` and a full private copy of the master pool). -/
theorem dispatch_inv10 (master : List (List Char)) (garbage : Game) (r : Nat)
    (st : ServerState) (shm : Shm) (st' : ServerState) (shm' : Shm) (ops : List SemOp)
    (hst : ∀ c ∈ st.clients, c.gamecnt + c.words.length = master.length)
    (h : dispatch master.length master garbage r st shm = some (st', shm', ops)) :
    ∀ c ∈ st'.clients, c.gamecnt + c.words.length = master.length := by
  unfold dispatch at h
  cases hres : resolve_client master garbage st shm with
  | none => rw [hres] at h; exact absurd h (by simp)
  | some p =>
    rw [hres, Option.map_some'] at h
    have hp : p.1.gamecnt + p.1.words.length = master.length ∧
        ∀ c ∈ p.2.clients, c.gamecnt + c.words.length = master.length := by
      rcases resolve_client_cases master garbage st shm p hres with ⟨hreg, hnewp⟩ | ⟨hmem, hp2⟩
      · have hnew : (⟨st.client_count, master, garbage, 0⟩ : Client).gamecnt +
            (⟨st.client_count, master, garbage, 0⟩ : Client).words.length =
            master.length := by
          dsimp only
          omega
        rw [hnewp]
        refine ⟨hnew, ?_⟩
        intro c hc
        rcases List.mem_cons.mp hc with h1 | h1
        · exact h1 ▸ hnew
        · exact hst c h1
      · exact ⟨hst p.1 hmem, hp2 ▸ hst⟩
    obtain ⟨hp1, hp2⟩ := hp
    by_cases ht : shm.terminate = true
    · rw [if_pos ht] at h
      injection h with h1
      injection h1 with h2 h3
      rw [← h2]
      intro c hc
      exact hp2 c (mem_removeClient p.2.clients p.1.clientno c hc)
    · rw [if_neg ht] at h
      injection h with h1
      injection h1 with h2 h3
      rw [← h2]
      intro c hc
      rcases mem_setClient p.2.clients p.1.clientno _ c hc with h6 | h6
      · exact h6 ▸ handle_game_inv10 master.length r shm p.1 hp1
      · exact hp2 c h6

/-- The dispatch loop preserves the pool-size invariant over a whole run. -/
theorem runServer_inv10 (master : List (List Char)) :
    ∀ (reqs : List (Nat × Game × Request)) (st : ServerState) (shm : Shm)
      (st' : ServerState) (shm' : Shm) (resps : List Shm),
      (∀ c ∈ st.clients, c.gamecnt + c.words.length = master.length) →
      runServer master.length master reqs st shm = some (st', shm', resps) →
      ∀ c ∈ st'.clients, c.gamecnt + c.words.length = master.length := by
  intro reqs
  induction reqs with
  | nil =>
    intro st shm st' shm' resps hst h
    simp only [runServer, Option.some.injEq, Prod.mk.injEq] at h
    obtain ⟨h1, h2, h3⟩ := h
    subst h1
    exact hst
  | cons a rest ih =>
    intro st shm st' shm' resps hst h
    obtain ⟨r, garbage, q⟩ := a
    simp only [runServer] at h
    cases hd : dispatch master.length master garbage r st (writeRequest shm q) with
    | none => rw [hd] at h; exact absurd h (by simp)
    | some p1 =>
      obtain ⟨st1, shm1, ops⟩ := p1
      rw [hd] at h
      dsimp only at h
      have hstep := dispatch_inv10 master garbage r st (writeRequest shm q) st1 shm1 ops hst hd
      cases hrest : runServer master.length master rest st1 shm1 with
      | none => rw [hrest] at h; exact absurd h (by simp)
      | some p2 =>
        obtain ⟨st2, shm2, resps2⟩ := p2
        rw [hrest] at h
        dsimp only at h
        injection h with h1
        injection h1 with h2 h3
        subst h2
        exact ih st1 shm1 st2 shm2 resps2 hstep hrest

/-- C10: after any sequence of dispatched requests from the initial
server state, every tracked session satisfies `games_played + remaining
pool size = master pool size`: the invariant is established at session
creation (`gamecnt = 0` with a full private copy of the pool) and
preserved by every dispatch (an exhausted New changes nothing, a
successful New trades one pool node for one `gamecnt` increment, and
guess handling touches neither). -/
theorem claim_C10 (master : List (List Char)) (reqs : List (Nat × Game × Request))
    (st' : ServerState) (shm' : Shm) (resps : List Shm)
    (h : runServer master.length master reqs serverState0 shm0 = some (st', shm', resps)) :
    ∀ c ∈ st'.clients, c.gamecnt + c.words.length = master.length := by
  refine runServer_inv10 master reqs serverState0 shm0 st' shm' resps ?_ h
  intro c hc
  exact absurd hc (List.not_mem_nil c)

/-- Witness for C10: one New request against the pool ["CAT"], checked on
the single resulting session. -/
theorem claim_C10_witness :
    (⟨0, [], ⟨['C', 'A', 'T'], ['_', '_', '_'], game_open, 0⟩, 1⟩ : Client).gamecnt +
      (⟨0, [], ⟨['C', 'A', 'T'], ['_', '_', '_'], game_open, 0⟩, 1⟩ : Client).words.length =
      [['C', 'A', 'T']].length :=
  claim_C10 [['C', 'A', 'T']] [(0, ⟨[], [], game_new, 0⟩, ⟨-1, game_new, 'C', false⟩)]
    ⟨[⟨0, [], ⟨['C', 'A', 'T'], ['_', '_', '_'], game_open, 0⟩, 1⟩], 1⟩
    ⟨0, 0, game_open, 'C', ['_', '_', '_'], false⟩
    [⟨0, 0, game_open, 'C', ['_', '_', '_'], false⟩]
    (by decide)
    ⟨0, [], ⟨['C', 'A', 'T'], ['_', '_', '_'], game_open, 0⟩, 1⟩
    (by decide)

end Hangman
